import Mathlib

/-!
Verification of the OpenVDR file-organization engine
(`src/app/services/fileOrganizer.ts` and its API route
`src/app/api/organize/route.tsx`), via a shallow embedding in Lean 4.

Modelling conventions:
* Object-store (MinIO) state is an association list from object keys to
  contents; `copyObject`/`removeObject`/`putObject`/`getObject` mirror the
  MinIO client calls used by the service.  Network failures of individual
  calls are injected through an `Env` of boolean oracles; an operation that
  throws in TypeScript returns `none` (or a `false` flag) here.
* Object contents are opaque blobs, except that the history document is
  represented structurally (`Content.histDoc`) so that the
  JSON-serialize/parse round trip of `_metadata/organization_history.json`
  is the identity; a non-history blob at that key models a document that
  fails to `JSON.parse`.
* Timestamps (`timestamp`, `batch`, `uploadDate`) and the `action:
  'manual-move'` tag carry no control-flow weight in the source and are not
  modelled; `lastModified`/`size` are carried as plain `Nat`s.
* JavaScript string operations are modelled on Lean `String`/`List Char`:
  `includes` as list-infix test, `split('/')`/`split('.')`/`split('_')` as
  `String.splitOn`, the regex `\s` as `Char.isWhitespace` (ASCII
  whitespace), `toLowerCase` as `Char.toLower` per character (ASCII; the
  object keys and folder labels involved are ASCII).
-/

namespace OpenVDR

/-! ## JavaScript string primitives -/

/-- Does `pat` occur as a contiguous sublist of the second argument?
(Helper for JS `String.prototype.includes`; `pat = []` matches anywhere,
as in JS.) -/
def containsList (pat : List Char) : List Char → Bool
  | [] => pat.isEmpty
  | c :: rest => pat.isPrefixOf (c :: rest) || containsList pat rest

/-- JS `a.includes(b)`: `b` occurs as a contiguous substring of `a`. -/
def containsStr (s pat : String) : Bool :=
  containsList pat.toList s.toList

/-- JS `s.split(sep)` for a one-character separator (the only kind this
code base uses: `'/'`, `'.'`, `'_'`).  `""` splits to `[""]`, as in JS. -/
def splitOnChar (sep : Char) : List Char → List (List Char)
  | [] => [[]]
  | c :: rest =>
    if c = sep then [] :: splitOnChar sep rest
    else
      match splitOnChar sep rest with
      | [] => [[c]]
      | g :: gs => (c :: g) :: gs

/-- The function `splitOnChar` lifted to `String`. -/
def jsSplit (s : String) (sep : Char) : List String :=
  (splitOnChar sep s.toList).map fun g => ⟨g⟩

/-- Inverse of a split: join pieces with the separator (JS
`substring(0, lastIndexOf(sep))` is the join of all but the last piece). -/
def joinWith (sep : Char) : List (List Char) → List Char
  | [] => []
  | [g] => g
  | g :: gs => g ++ sep :: joinWith sep gs

/-- JS `s.split('/').pop()` (the list produced by `split` is never empty,
so `pop` never yields `undefined`). -/
def basename (s : String) : String :=
  (jsSplit s '/').getLastD s

/-- JS `s.split('.').pop() ?? ''` — the extension field of a listed file. -/
def extOf (s : String) : String :=
  (jsSplit s '.').getLastD ""

/-- JS `s.split('_')[0]` — the filename prefix used by the consistency
pass of `improveFolderNames`. -/
def prefixOf (s : String) : String :=
  (jsSplit s '_').headD s

/-- JS `path.includes('/') ? path.substring(0, path.lastIndexOf('/')) : null`
— the `originalFolder` computation in `suggestOrganization`. -/
def originalFolderOf (path : String) : Option String :=
  if containsStr path "/" then
    some ⟨joinWith '/' ((splitOnChar '/' path.toList).dropLast)⟩
  else
    none

/-- One pass of the JS regex replace `s.replace(/\s+/g, '-')`: each maximal
run of whitespace becomes a single `'-'`.  The boolean argument records
whether the previous character was whitespace (i.e. whether we are inside a
run that has already emitted its hyphen). -/
def collapseWs : Bool → List Char → List Char
  | _, [] => []
  | prevWs, c :: rest =>
    if c.isWhitespace then
      if prevWs then collapseWs true rest
      else '-' :: collapseWs true rest
    else
      c :: collapseWs false rest

/-- JS `s.replace(/\s+/g, '-')`. -/
def replaceWsRuns (s : String) : String :=
  ⟨collapseWs false s.toList⟩

/-- JS `s.toLowerCase()` (ASCII). -/
def jsToLower (s : String) : String :=
  ⟨s.toList.map Char.toLower⟩

/-- The folder-name normalization applied inline in `suggestOrganization`:
`suggestedFolder.replace(/\s+/g, '-').toLowerCase()`. -/
def normalizeFolder (s : String) : String :=
  jsToLower (replaceWsRuns s)

/-! ## Fallback classifier (`categorizeFile`) -/

/-- Function `categorizeFile` from `fileOrganizer.ts`: ordered substring-match rules,
first match wins, default `'Miscellaneous'`. -/
def categorizeFile (filename : String) : String :=
  if containsStr filename "1099" then "Tax Documents"
  else if containsStr filename "Addendum" then "Contract Addendums"
  else if containsStr filename "Affidavit" then "Legal Documents"
  else if containsStr filename "Agent" then "Agent Communications"
  else if containsStr filename "Appraisal" then "Property Valuation"
  else if containsStr filename "Asbestos" || containsStr filename "Inspection" then "Inspection Reports"
  else if containsStr filename "Attorney" then "Legal Correspondence"
  else if containsStr filename "Balance" || containsStr filename "Statement" then "Financial Documents"
  else if containsStr filename "Tenant" || containsStr filename "Lease" then "Tenant Records"
  else if containsStr filename "Insurance" then "Insurance Documents"
  else if containsStr filename "Tax" then "Tax Documents"
  else if containsStr filename "Title" then "Title Documents"
  else if containsStr filename "Property" then "Property Documents"
  else if containsStr filename "Loan" then "Loan Documents"
  else if containsStr filename "HOA" then "HOA Documents"
  else if containsStr filename "Utility" then "Utilities"
  else if containsStr filename "Contract" then "Contracts"
  else "Miscellaneous"

/-! ## Unorganized-file lister (`getRecentUploads`) -/

/-- One object as delivered by `minioClient.listObjects` (recursive listing
of the bucket): full key, size, last-modified time. -/
structure MinioObject where
  name : String
  size : Nat
  lastModified : Nat
deriving Repr, DecidableEq

/-- The `FileMetadata` record built by `getRecentUploads`. -/
structure FileMetadata where
  name : String
  path : String
  objectName : String
  size : Nat
  type : String
  uploadDate : Nat
deriving Repr, DecidableEq

/-- Function `getRecentUploads` from `fileOrganizer.ts`, as a function of the object
listing the store produces: an object is skipped iff its key is empty (JS
falsy) or contains the substring `'/_organized/'`; otherwise it is emitted
with `name` = last path segment, `type` = text after the last dot. -/
def getRecentUploads (objs : List MinioObject) : List FileMetadata :=
  objs.filterMap fun o =>
    if o.name = "" || containsStr o.name "/_organized/" then none
    else some
      { name := (jsSplit o.name '/').getLastD o.name
        path := o.name
        objectName := o.name
        size := o.size
        type := extOf o.name
        uploadDate := o.lastModified }

/-! ## Suggestion builder (`suggestOrganization`, `improveFolderNames`,
`getMostCommonItem`) -/

/-- JS object property read `m[k]` for a string-keyed object, modelled as
first-match lookup in an insertion-ordered association list (JS object keys
are unique, so first match is the only match). -/
def lookupStr (m : List (String × String)) (k : String) : Option String :=
  (m.find? fun p => p.1 == k).map fun p => p.2

/-- First-occurrence deduplication: the order in which a JS `Set` (or an
accumulate-if-absent loop) enumerates the distinct elements of a list. -/
def uniqAux (seen : List String) : List String → List String
  | [] => []
  | x :: xs =>
    if seen.contains x then uniqAux seen xs
    else x :: uniqAux (x :: seen) xs

/-- JS `Array.from(new Set(l))`. -/
def uniqFirst (l : List String) : List String :=
  uniqAux [] l

/-- Function `getMostCommonItem` from `fileOrganizer.ts`: count occurrences, then
scan the distinct items in first-seen order keeping the first item whose
count strictly exceeds the best so far (seeded with `arr[0]` and count 0). -/
def getMostCommonItem (arr : List String) : String :=
  ((uniqFirst arr).foldl
    (fun best item =>
      if arr.count item > best.2 then (item, arr.count item) else best)
    (arr.headD "", 0)).1

/-- The `folderNameMap` object literal inside `improveFolderNames`. -/
def folderNameMap : List (String × String) :=
  [("1099", "Tax Documents"),
   ("Forms", "Tax Documents"),
   ("Addendum", "Contract Addendums"),
   ("Emails", "Communications"),
   ("Report", "Reports"),
   ("Correspondence", "Communications"),
   ("Financial", "Financial Documents"),
   ("Statement", "Financial Documents"),
   ("Loan", "Loan Documents"),
   ("Insurance", "Insurance Documents"),
   ("Tenant", "Tenant Records"),
   ("HOA", "HOA Documents"),
   ("Title", "Title Documents"),
   ("Permits", "Permits"),
   ("Inspection", "Inspection Reports"),
   ("Legal", "Legal Documents"),
   ("Utility", "Utilities"),
   ("Tax", "Tax Documents"),
   ("Property", "Property Documents"),
   ("Contract", "Contracts")]

/-- Lookup `folderNameMap[f]`, falling back to `f` when absent. -/
def canonFolder (f : String) : String :=
  (lookupStr folderNameMap f).getD f

/-- Function `improveFolderNames` from `fileOrganizer.ts`.  First pass: replace each
folder through `folderNameMap`.  Second pass: group the file names by the
text before the first `'_'`; every group with more than one member gets the
group's most common (post-first-pass) folder.  Groups are disjoint, so the
JS in-place group-by-group mutation equals this per-key description. -/
def improveFolderNames (org : List (String × String)) : List (String × String) :=
  let improved := org.map fun p => (p.1, canonFolder p.2)
  let keys := improved.map fun p => p.1
  improved.map fun p =>
    let group := keys.filter fun f => prefixOf f == prefixOf p.1
    if group.length > 1 then
      (p.1, getMostCommonItem (group.filterMap (lookupStr improved)))
    else p

/-- One row of `OrganizationSuggestion.files`. -/
structure OrganizationEntry where
  objectName : String
  suggestedFolder : String
  originalFolder : Option String
deriving Repr, DecidableEq

/-- The `OrganizationSuggestion` interface. -/
structure OrganizationSuggestion where
  files : List OrganizationEntry
  uniqueFolders : List String
deriving Repr, DecidableEq

/-- The per-file entry built in the success path of `suggestOrganization`:
`improvedOrganization[file.name] || 'Uncategorized'` (JS `||` treats both a
missing key and the empty string as falsy), then the inline normalization
`.replace(/\s+/g, '-').toLowerCase()`. -/
def mkEntry (improved : List (String × String)) (f : FileMetadata) : OrganizationEntry :=
  let raw := (lookupStr improved f.name).getD ""
  { objectName := f.objectName
    suggestedFolder := normalizeFolder (if raw = "" then "Uncategorized" else raw)
    originalFolder := originalFolderOf f.path }

/-- The classifier outcome as seen by `suggestOrganization` after response
parsing and Zod validation: `some m` is a parsed string-to-string mapping
(possibly covering only a subset of the files), `none` is any thrown error
(transport failure, non-JSON response, schema violation), which the
`catch` block downgrades to the fallback classifier. -/
abbrev ClassifierOutcome := Option (List (String × String))

/-- Function `suggestOrganization` from `fileOrganizer.ts` as a function of the input
file list and the classifier outcome.  Success path: fill files missing
from the mapping via `categorizeFile`, run `improveFolderNames`, then build
one entry per file, accumulating `uniqueFolders` in first-seen order.
Catch path: every file is classified by `categorizeFile` and normalized
identically; `uniqueFolders` is `Array.from(new Set(...))`. -/
def suggestOrganization (files : List FileMetadata) (outcome : ClassifierOutcome) :
    OrganizationSuggestion :=
  if files = [] then { files := [], uniqueFolders := [] }
  else
    match outcome with
    | some m =>
      let fileNames := files.map fun f => f.name
      let missing := fileNames.filter fun n => (lookupStr m n).isNone
      let fileOrg := m ++ missing.map fun n => (n, categorizeFile n)
      let improved := improveFolderNames fileOrg
      let entries := files.map (mkEntry improved)
      { files := entries
        uniqueFolders := uniqFirst (entries.map fun e => e.suggestedFolder) }
    | none =>
      { files := files.map fun f =>
          { objectName := f.objectName
            suggestedFolder := normalizeFolder (categorizeFile f.name)
            originalFolder := originalFolderOf f.path }
        uniqueFolders :=
          uniqFirst (files.map fun f => normalizeFolder (categorizeFile f.name)) }

/-! ## Object store, history document, failure environment -/

/-- One recorded move: the `{ originalPath, newPath, timestamp }` objects
pushed by `applyOrganization` and `moveFile` (timestamp and the
`manual-move` tag are metadata without control-flow weight and are not
modelled). -/
structure MoveAction where
  originalPath : String
  newPath : String
deriving Repr, DecidableEq

/-- One element of the persisted history array:
`{ batch: <timestamp>, actions: [...] }` (batch timestamp not modelled). -/
structure HistoryBatch where
  actions : List MoveAction
deriving Repr, DecidableEq

/-- An object's content: an opaque blob, or the history document (so that
serializing and re-parsing `_metadata/organization_history.json` is the
identity, and a `blob` at that key is a document that fails `JSON.parse`). -/
inductive Content where
  | blob : String → Content
  | histDoc : List HistoryBatch → Content
deriving Repr, DecidableEq

/-- The bucket: an insertion-ordered key→content map (lookup takes the
first hit; `put` removes any previous binding first, so keys stay unique). -/
abbrev Store := List (String × Content)

/-- Look up an object by key. -/
def Store.get : Store → String → Option Content
  | [], _ => none
  | (k', v) :: rest, k => if k' = k then some v else Store.get rest k

/-- Delete an object (MinIO `removeObject` succeeds even if absent). -/
def Store.remove (s : Store) (k : String) : Store :=
  s.filter fun p => !(p.1 == k)

/-- Write an object, overwriting any existing one at that key. -/
def Store.put (s : Store) (k : String) (v : Content) : Store :=
  (k, v) :: Store.remove s k

/-- Failure oracles for the individual MinIO calls: a `false` answer models
the client call throwing (network error, missing bucket, …).  `copyOk` is
consulted per (destination, source) pair, the others per key. -/
structure Env where
  copyOk : String → String → Bool
  removeOk : String → Bool
  putOk : String → Bool
  getOk : String → Bool

/-- The environment in which every store call succeeds (copies still fail
when the source object does not exist). -/
def Env.allOk : Env :=
  { copyOk := fun _ _ => true
    removeOk := fun _ => true
    putOk := fun _ => true
    getOk := fun _ => true }

/-- Call `minioClient.copyObject(bucket, dst, bucket + '/' + src)`: fails
(throws → `none`) when the oracle says so or when the source is absent. -/
def copyObject (env : Env) (s : Store) (dst src : String) : Option Store :=
  if env.copyOk dst src then (Store.get s src).map fun v => Store.put s dst v
  else none

/-- Call `minioClient.removeObject(bucket, k)`. -/
def removeObject (env : Env) (s : Store) (k : String) : Option Store :=
  if env.removeOk k then some (Store.remove s k) else none

/-- Call `minioClient.putObject(bucket, k, data)`. -/
def putObject (env : Env) (s : Store) (k : String) (v : Content) : Option Store :=
  if env.putOk k then some (Store.put s k v) else none

/-- Call `minioClient.getObject(bucket, k)` followed by draining the stream:
fails when the oracle says so or when the object is absent. -/
def getObject (env : Env) (s : Store) (k : String) : Option Content :=
  if env.getOk k then Store.get s k else none

/-- The fixed key of the history document. -/
def histKey : String := "_metadata/organization_history.json"

/-- Parse (`JSON.parse`) of the fetched history document: succeeds exactly on a
structurally valid history array. -/
def parseHistory : Option Content → Option (List HistoryBatch)
  | some (Content.histDoc h) => some h
  | _ => none

/-- Function `storeOrganizationHistory` from `fileOrganizer.ts`: read the existing
history (any read or parse failure, including the document's absence,
yields `[]`), push `{ actions }`, write back.  The outer `try/catch`
swallows a write failure, leaving the store unchanged and returning
normally either way. -/
def storeOrganizationHistory (env : Env) (s : Store) (actions : List MoveAction) : Store :=
  let history := (parseHistory (getObject env s histKey)).getD []
  match putObject env s histKey (Content.histDoc (history ++ [⟨actions⟩])) with
  | some s' => s'
  | none => s

/-! ## Organization applier (`applyOrganization`) -/

/-- The destination key computed for an entry inside `applyOrganization`:
`` `_organized/${file.suggestedFolder}/${file.objectName.split('/').pop()}` ``. -/
def newPathOf (e : OrganizationEntry) : String :=
  "_organized/" ++ e.suggestedFolder ++ "/" ++ basename e.objectName

/-- The `for (const file of organization.files)` loop of
`applyOrganization`: copy to the computed destination, record the action,
delete the original.  A thrown copy/delete aborts the loop (`none` result,
collected actions discarded by the `catch`), returning the store as the
partial moves left it. -/
def applyEntries (env : Env) :
    Store → List OrganizationEntry → List MoveAction → Store × Option (List MoveAction)
  | s, [], acc => (s, some acc)
  | s, e :: rest, acc =>
    match copyObject env s (newPathOf e) e.objectName with
    | none => (s, none)
    | some s1 =>
      let acc1 := acc ++ [⟨e.objectName, newPathOf e⟩]
      match removeObject env s1 e.objectName with
      | none => (s1, none)
      | some s2 => applyEntries env s2 rest acc1

/-- Function `applyOrganization` from `fileOrganizer.ts`: run the move loop; on full
success append one batch to the history (via `storeOrganizationHistory`,
which never throws) and return `true`; any mid-loop failure is caught and
reported as `false`, with no history write. -/
def applyOrganization (env : Env) (s : Store) (org : OrganizationSuggestion) :
    Bool × Store :=
  match applyEntries env s org.files [] with
  | (s', some actions) => (true, storeOrganizationHistory env s' actions)
  | (s', none) => (false, s')

/-! ## Reverter (`revertLastOrganization`) and manual move (`moveFile`) -/

/-- The `for (const action of lastBatch.actions)` loop of
`revertLastOrganization`: copy each object from `newPath` back to
`originalPath`, then delete `newPath`; a thrown call aborts with `false`. -/
def revertActions (env : Env) : Store → List MoveAction → Store × Bool
  | s, [] => (s, true)
  | s, a :: rest =>
    match copyObject env s a.originalPath a.newPath with
    | none => (s, false)
    | some s1 =>
      match removeObject env s1 a.newPath with
      | none => (s1, false)
      | some s2 => revertActions env s2 rest

/-- Function `revertLastOrganization` from `fileOrganizer.ts`: fetch and parse the
history document (any failure, including its absence, is caught and
returns `false`); an empty history array also returns `false`; otherwise
`pop()` the last batch, revert its actions in order, and write the
shortened history back. -/
def revertLastOrganization (env : Env) (s : Store) : Bool × Store :=
  match parseHistory (getObject env s histKey) with
  | none => (false, s)
  | some history =>
    if history = [] then (false, s)
    else
      let lastBatch := history.getLastD ⟨[]⟩
      let shortened := history.dropLast
      match revertActions env s lastBatch.actions with
      | (s', false) => (false, s')
      | (s', true) =>
        match putObject env s' histKey (Content.histDoc shortened) with
        | some s'' => (true, s'')
        | none => (false, s')

/-- Function `moveFile` from `fileOrganizer.ts`: single-object copy+delete into
`` `_organized/${targetFolder}/${fileName}` `` (the target folder is used
verbatim), then a one-action history append via
`storeOrganizationHistory`. -/
def moveFile (env : Env) (s : Store) (objectName targetFolder : String) :
    Bool × Store :=
  let fileName := basename objectName
  let newObjectName := "_organized/" ++ targetFolder ++ "/" ++ fileName
  match copyObject env s newObjectName objectName with
  | none => (false, s)
  | some s1 =>
    match removeObject env s1 objectName with
    | none => (false, s1)
    | some s2 => (true, storeOrganizationHistory env s2 [⟨objectName, newObjectName⟩])

/-! ## A generic copy-then-delete loop

Both the apply loop and the revert loop are instances of one shape: walk a
list of (source, destination) pairs, copying then deleting.  `moveLoop` is
that shape; `applyEntries` and `revertActions` are proved equal to it
below, and the success-path characterization is proved once. -/

/-- Copy `p.2 ← p.1` then delete `p.1`, for each pair in order; `false` on
the first failing store call, returning the store as the partial run left
it. -/
def moveLoop (env : Env) : Store → List (String × String) → Store × Bool
  | s, [] => (s, true)
  | s, p :: rest =>
    match copyObject env s p.2 p.1 with
    | none => (s, false)
    | some s1 =>
      match removeObject env s1 p.1 with
      | none => (s1, false)
      | some s2 => moveLoop env s2 rest

/-- The (source, destination) pairs walked by `applyOrganization`. -/
def applyPairs (es : List OrganizationEntry) : List (String × String) :=
  es.map fun e => (e.objectName, newPathOf e)

/-- The (source, destination) pairs walked by `revertLastOrganization`. -/
def revertPairs (acts : List MoveAction) : List (String × String) :=
  acts.map fun a => (a.newPath, a.originalPath)

/-- The route handler `PUT /api/organize` with `action: 'revert'`
(`route.tsx`): HTTP status and message as a function of the service's
boolean result. -/
def routePutRevert (success : Bool) : Nat × String :=
  if success then (200, "Organization reverted successfully")
  else (500, "Error reverting organization")

end OpenVDR

namespace OpenVDR

/-! ## Helper lemmas: store operations -/

theorem get_remove (s : Store) (k k' : String) :
    Store.get (Store.remove s k) k' = if k = k' then none else Store.get s k' := by
  induction s with
  | nil => by_cases h : k = k' <;> simp [Store.remove, Store.get, h]
  | cons p rest ih =>
    by_cases hpk : p.1 = k <;> by_cases h : k = k' <;> by_cases hp' : p.1 = k' <;>
      simp_all [Store.remove, List.filter_cons, Store.get]

theorem get_put (s : Store) (k : String) (v : Content) (k' : String) :
    Store.get (Store.put s k v) k' = if k = k' then some v else Store.get s k' := by
  unfold Store.put
  by_cases h : k = k' <;> simp [Store.get, h, get_remove]

/-! ## Helper lemmas: characters and normalization -/

theorem uint32_le_iff {a b : UInt32} : a ≤ b ↔ a.toNat ≤ b.toNat := by
  rw [UInt32.le_def]; exact Fin.le_def

theorem char_isUpper_iff (c : Char) : c.isUpper = true ↔ 65 ≤ c.toNat ∧ c.toNat ≤ 90 := by
  simp only [Char.isUpper, Bool.and_eq_true, decide_eq_true_eq, ge_iff_le,
    Bool.decide_and]
  rw [show ((65 : UInt32) ≤ c.val) = ((65 : UInt32).toNat ≤ c.val.toNat) from
      propext uint32_le_iff,
    show (c.val ≤ (90 : UInt32)) = (c.val.toNat ≤ (90 : UInt32).toNat) from
      propext uint32_le_iff]
  exact Iff.rfl

theorem toLower_isUpper (c : Char) : (Char.toLower c).isUpper = false := by
  rw [Char.toLower]
  split
  next h =>
    obtain ⟨h1, h2⟩ := h
    rw [Bool.eq_false_iff]
    intro hc
    rw [char_isUpper_iff] at hc
    set n := Char.toNat c with hn
    interval_cases n <;> revert hc <;> decide
  next h =>
    rw [Bool.eq_false_iff]
    intro hc
    rw [char_isUpper_iff] at hc
    exact h ⟨hc.1, hc.2⟩

theorem toLower_isWhitespace (c : Char) (h : c.isWhitespace = false) :
    (Char.toLower c).isWhitespace = false := by
  rw [Char.toLower]
  split
  next hr =>
    obtain ⟨h1, h2⟩ := hr
    set n := Char.toNat c with hn
    interval_cases n <;> decide
  next hr => exact h

theorem isWhitespace_toLower (c : Char) :
    (Char.toLower c).isWhitespace = c.isWhitespace := by
  rw [Char.toLower]
  split
  next hr =>
    obtain ⟨h1, h2⟩ := hr
    have hweq : c.isWhitespace = false := by
      rw [Bool.eq_false_iff]
      intro hw
      rw [Char.isWhitespace] at hw
      simp only [Bool.or_eq_true, decide_eq_true_eq] at hw
      rcases hw with ((h | h) | h) | h <;> subst h <;> revert h1 h2 <;> decide
    rw [hweq]
    set n := Char.toNat c with hn
    interval_cases n <;> decide
  next hr => rfl

theorem collapseWs_not_ws (l : List Char) :
    ∀ (b : Bool), ∀ c ∈ collapseWs b l, c.isWhitespace = false := by
  induction l with
  | nil => intro b c hc; simp [collapseWs] at hc
  | cons x rest ih =>
    intro b c hc
    by_cases hx : x.isWhitespace = true
    · cases b with
      | true => simp only [collapseWs, hx, if_true] at hc; exact ih true c hc
      | false =>
        simp only [collapseWs, hx, if_true] at hc
        rcases List.mem_cons.mp hc with h | h
        · subst h; decide
        · exact ih true c h
    · simp only [collapseWs, hx, if_false] at hc
      rcases List.mem_cons.mp hc with h | h
      · subst h; exact Bool.eq_false_iff.mpr hx
      · exact ih false c h

theorem collapseWs_ne_nil (l : List Char) (h : l ≠ []) :
    collapseWs false l ≠ [] := by
  match l with
  | [] => exact absurd rfl h
  | x :: rest =>
    by_cases hx : x.isWhitespace = true <;> simp [collapseWs, hx]

/-- The property the spec calls "non-empty, normalized (lowercase,
hyphenated, no whitespace)". -/
def IsNormalizedSlug (s : String) : Prop :=
  s ≠ "" ∧ ∀ c ∈ s.toList, c.isUpper = false ∧ c.isWhitespace = false

theorem string_mk_ne_empty (l : List Char) (h : l ≠ []) : (⟨l⟩ : String) ≠ "" := by
  intro he
  exact h (congrArg String.data he)

theorem normalizeFolder_slug (s : String) (h : s ≠ "") :
    IsNormalizedSlug (normalizeFolder s) := by
  have hl : s.toList ≠ [] := by
    intro he
    apply h
    cases s with
    | mk data => simpa [String.toList] using congrArg String.mk he
  constructor
  · apply string_mk_ne_empty
    simp only [ne_eq, List.map_eq_nil_iff]
    exact collapseWs_ne_nil _ hl
  · intro c hc
    simp only [normalizeFolder, jsToLower, replaceWsRuns, String.toList] at hc
    rcases List.mem_map.mp hc with ⟨c', hc', rfl⟩
    exact ⟨toLower_isUpper c',
      toLower_isWhitespace c' (collapseWs_not_ws _ _ c' hc')⟩

/-! ## Helper lemmas: the move loops -/

theorem copyObject_eq_some {env : Env} {s : Store} {dst src : String} {s' : Store}
    (h : copyObject env s dst src = some s') :
    ∃ v, Store.get s src = some v ∧ s' = Store.put s dst v := by
  unfold copyObject at h
  split at h
  · rcases Option.map_eq_some'.mp h with ⟨v, hv, hs⟩
    exact ⟨v, hv, hs.symm⟩
  · cases h

theorem removeObject_eq_some {env : Env} {s : Store} {k : String} {s' : Store}
    (h : removeObject env s k = some s') : s' = Store.remove s k := by
  unfold removeObject at h
  split at h
  · cases h; rfl
  · cases h

/-- Lemma: `applyEntries` is `moveLoop` over source→destination pairs, carrying
the recorded actions on success (the `catch` discards them on failure). -/
theorem applyEntries_eq_moveLoop (env : Env) (es : List OrganizationEntry) :
    ∀ (s : Store) (acc : List MoveAction),
    applyEntries env s es acc =
      ((moveLoop env s (applyPairs es)).1,
       if (moveLoop env s (applyPairs es)).2
       then some (acc ++ es.map fun e => ⟨e.objectName, newPathOf e⟩) else none) := by
  induction es with
  | nil => intro s acc; simp [applyEntries, moveLoop, applyPairs]
  | cons e rest ih =>
    intro s acc
    rcases hc : copyObject env s (newPathOf e) e.objectName with _ | s1
    · simp [applyEntries, moveLoop, applyPairs, hc]
    · rcases hr : removeObject env s1 e.objectName with _ | s2
      · simp [applyEntries, moveLoop, applyPairs, hc, hr]
      · simp only [applyEntries, moveLoop, applyPairs, List.map_cons, hc, hr]
        rw [ih]
        simp [applyPairs, List.append_assoc]

/-- Lemma: `revertActions` is `moveLoop` over newPath→originalPath pairs. -/
theorem revertActions_eq_moveLoop (env : Env) (acts : List MoveAction) :
    ∀ (s : Store),
    revertActions env s acts = moveLoop env s (revertPairs acts) := by
  induction acts with
  | nil => intro s; rfl
  | cons a rest ih =>
    intro s
    rcases hc : copyObject env s a.originalPath a.newPath with _ | s1
    · simp [revertActions, moveLoop, revertPairs, hc]
    · rcases hr : removeObject env s1 a.newPath with _ | s2
      · simp [revertActions, moveLoop, revertPairs, hc, hr]
      · simp only [revertActions, moveLoop, revertPairs, List.map_cons, hc, hr]
        simpa [revertPairs] using ih s2

/-- Keys that are neither a source nor a destination of any pair are
untouched by the loop, whether or not it completes. -/
theorem moveLoop_untouched (env : Env) (ps : List (String × String)) :
    ∀ (s : Store) (k : String), (∀ p ∈ ps, k ≠ p.1 ∧ k ≠ p.2) →
    Store.get (moveLoop env s ps).1 k = Store.get s k := by
  induction ps with
  | nil => intro s k _; rfl
  | cons p rest ih =>
    intro s k hk
    obtain ⟨hk1, hk2⟩ := hk p (List.mem_cons_self p rest)
    have hrest : ∀ q ∈ rest, k ≠ q.1 ∧ k ≠ q.2 :=
      fun q hq => hk q (List.mem_cons_of_mem p hq)
    rcases hc : copyObject env s p.2 p.1 with _ | s1
    · simp [moveLoop, hc]
    · obtain ⟨v, hv, hs1⟩ := copyObject_eq_some hc
      have hgs1 : Store.get s1 k = Store.get s k := by
        rw [hs1, get_put]
        simp [Ne.symm hk2]
      rcases hr : removeObject env s1 p.1 with _ | s2
      · simpa [moveLoop, hc, hr] using hgs1
      · have hs2 := removeObject_eq_some hr
        have hgs2 : Store.get s2 k = Store.get s k := by
          rw [hs2, get_remove]
          simp [Ne.symm hk1, hgs1]
        simp only [moveLoop, hc, hr]
        rw [ih s2 k hrest, hgs2]

/-- Success-path characterization of the loop under the all-succeed
environment: when every source exists, sources are pairwise distinct,
destinations are pairwise distinct, and no destination is also a source,
the loop completes, each destination holds its source's old content, and
each source is gone. -/
theorem moveLoop_ok (ps : List (String × String)) :
    ∀ (s : Store),
    (∀ p ∈ ps, (Store.get s p.1).isSome = true) →
    (ps.Pairwise fun p q => p.1 ≠ q.1) →
    (ps.Pairwise fun p q => p.2 ≠ q.2) →
    (∀ p ∈ ps, ∀ q ∈ ps, p.2 ≠ q.1) →
    (moveLoop Env.allOk s ps).2 = true ∧
    (∀ p ∈ ps, Store.get (moveLoop Env.allOk s ps).1 p.2 = Store.get s p.1) ∧
    (∀ p ∈ ps, Store.get (moveLoop Env.allOk s ps).1 p.1 = none) := by
  induction ps with
  | nil => intro s _ _ _ _; exact ⟨rfl, by simp, by simp⟩
  | cons p rest ih =>
    intro s hex hfst hsnd hdisj
    obtain ⟨v, hv⟩ := Option.isSome_iff_exists.mp (hex p (List.mem_cons_self p rest))
    have hfst' := List.pairwise_cons.mp hfst
    have hsnd' := List.pairwise_cons.mp hsnd
    have hmemp := List.mem_cons_self p rest
    have hdp : ∀ q ∈ rest, p.2 ≠ q.1 :=
      fun q hq => hdisj p hmemp q (List.mem_cons_of_mem p hq)
    have hdq : ∀ q ∈ rest, q.2 ≠ p.1 :=
      fun q hq => hdisj q (List.mem_cons_of_mem p hq) p hmemp
    have hpp : p.2 ≠ p.1 := hdisj p hmemp p hmemp
    have hcopy : copyObject Env.allOk s p.2 p.1 = some (Store.put s p.2 v) := by
      simp [copyObject, Env.allOk, hv]
    have hrem : removeObject Env.allOk (Store.put s p.2 v) p.1 =
        some (Store.remove (Store.put s p.2 v) p.1) := by
      simp [removeObject, Env.allOk]
    have hstep : moveLoop Env.allOk s (p :: rest) =
        moveLoop Env.allOk (Store.remove (Store.put s p.2 v) p.1) rest := by
      simp only [moveLoop, hcopy, hrem]
    set s2 := Store.remove (Store.put s p.2 v) p.1 with hs2
    have hg2 : ∀ x, x ≠ p.1 → x ≠ p.2 → Store.get s2 x = Store.get s x := by
      intro x hx1 hx2
      rw [hs2, get_remove, get_put]
      simp [Ne.symm hx1, Ne.symm hx2]
    have hex' : ∀ q ∈ rest, (Store.get s2 q.1).isSome = true := by
      intro q hq
      rw [hg2 q.1 (Ne.symm (hfst'.1 q hq)) (Ne.symm (hdp q hq))]
      exact hex q (List.mem_cons_of_mem p hq)
    obtain ⟨hb, h1, h2⟩ := ih s2 hex' hfst'.2 hsnd'.2
      (fun q hq r hr =>
        hdisj q (List.mem_cons_of_mem p hq) r (List.mem_cons_of_mem p hr))
    refine ⟨by rw [hstep]; exact hb, ?_, ?_⟩
    · intro q hq
      rcases List.mem_cons.mp hq with rfl | hq'
      · rw [hstep,
          moveLoop_untouched Env.allOk rest s2 q.2
            (fun r hr => ⟨hdp r hr, hsnd'.1 r hr⟩),
          hs2, get_remove, get_put]
        simp [Ne.symm hpp, hv]
      · rw [hstep, h1 q hq',
          hg2 q.1 (Ne.symm (hfst'.1 q hq')) (Ne.symm (hdp q hq'))]
    · intro q hq
      rcases List.mem_cons.mp hq with rfl | hq'
      · rw [hstep,
          moveLoop_untouched Env.allOk rest s2 q.1
            (fun r hr => ⟨hfst'.1 r hr, Ne.symm (hdq r hr)⟩),
          hs2, get_remove]
        simp
      · rw [hstep]
        exact h2 q hq'

theorem organized_key_ne_histKey (t b : String) :
    ("_organized/" ++ t ++ "/" ++ b) ≠ histKey := by
  intro h
  have h2 : ("_organized/" ++ t ++ "/" ++ b).data = histKey.data :=
    congrArg String.data h
  have h3 : (some 'o' : Option Char) = some 'm' :=
    congrArg (fun l => l.tail.head?) h2
  cases h3

/-! ## Claim C10 -/

/-- C10: `moveFile` computes the destination key as
`_organized/<targetFolder>/<basename(objectName)>` with `targetFolder`
used verbatim — no trimming, lowercasing, hyphenation, or validation — so
an un-normalized caller-supplied folder appears unchanged in the stored
key: for any source object and any target-folder string, the move succeeds
and the object's content sits at exactly that key (and is gone from the
source key). -/
theorem moveFile_verbatim_target (s : Store) (objectName targetFolder : String)
    (v : Content) (hsrc : Store.get s objectName = some v)
    (hself : "_organized/" ++ targetFolder ++ "/" ++ basename objectName ≠ objectName)
    (hmeta : objectName ≠ histKey) :
    (moveFile Env.allOk s objectName targetFolder).1 = true ∧
    Store.get (moveFile Env.allOk s objectName targetFolder).2
      ("_organized/" ++ targetFolder ++ "/" ++ basename objectName) = some v ∧
    Store.get (moveFile Env.allOk s objectName targetFolder).2 objectName = none := by
  have hnewhist := organized_key_ne_histKey targetFolder (basename objectName)
  have hcopy : copyObject Env.allOk s
      ("_organized/" ++ targetFolder ++ "/" ++ basename objectName) objectName =
      some (Store.put s ("_organized/" ++ targetFolder ++ "/" ++ basename objectName) v) := by
    simp [copyObject, Env.allOk, hsrc]
  have hrem : removeObject Env.allOk
      (Store.put s ("_organized/" ++ targetFolder ++ "/" ++ basename objectName) v)
      objectName =
      some (Store.remove
        (Store.put s ("_organized/" ++ targetFolder ++ "/" ++ basename objectName) v)
        objectName) := by
    simp [removeObject, Env.allOk]
  simp only [moveFile, hcopy, hrem]
  set s2 := Store.remove
    (Store.put s ("_organized/" ++ targetFolder ++ "/" ++ basename objectName) v)
    objectName with hs2
  have hhist : ∀ w, storeOrganizationHistory Env.allOk s2 w =
      Store.put s2 histKey
        (Content.histDoc ((parseHistory (getObject Env.allOk s2 histKey)).getD [] ++ [⟨w⟩])) := by
    intro w
    unfold storeOrganizationHistory
    simp [putObject, Env.allOk]
  have hg2new : Store.get s2
      ("_organized/" ++ targetFolder ++ "/" ++ basename objectName) = some v := by
    rw [hs2, get_remove, get_put]
    simp [Ne.symm hself]
  have hg2old : Store.get s2 objectName = none := by
    rw [hs2, get_remove]
    simp
  refine ⟨trivial, ?_, ?_⟩
  · rw [hhist, get_put, if_neg (Ne.symm hnewhist)]
    exact hg2new
  · rw [hhist, get_put, if_neg (Ne.symm hmeta)]
    exact hg2old

/-- Witness for C10: moving `docs/x.pdf` into the un-normalized folder
`"My FOLDER"` stores it at `_organized/My FOLDER/x.pdf`, spaces and
uppercase intact. -/
theorem moveFile_verbatim_target_witness :
    (moveFile Env.allOk [("docs/x.pdf", Content.blob "X")] "docs/x.pdf" "My FOLDER").1
      = true ∧
    Store.get
      (moveFile Env.allOk [("docs/x.pdf", Content.blob "X")] "docs/x.pdf" "My FOLDER").2
      ("_organized/" ++ "My FOLDER" ++ "/" ++ basename "docs/x.pdf")
      = some (Content.blob "X") ∧
    Store.get
      (moveFile Env.allOk [("docs/x.pdf", Content.blob "X")] "docs/x.pdf" "My FOLDER").2
      "docs/x.pdf" = none :=
  moveFile_verbatim_target [("docs/x.pdf", Content.blob "X")] "docs/x.pdf" "My FOLDER"
    (Content.blob "X") (by decide) (by decide) (by decide)

/-! ## Claim C9 -/

/-- C9: any listing that contains the history document
`_metadata/organization_history.json` makes `getRecentUploads` return it as
an unorganized file (no rule excludes the `_metadata/` namespace), with
display name `organization_history.json` — so the system's own transaction
log is offered for classification and can itself be moved by an organize
batch. -/
theorem getRecentUploads_includes_history_doc (objs : List MinioObject)
    (o : MinioObject) (ho : o ∈ objs) (hname : o.name = histKey) :
    ∃ r ∈ getRecentUploads objs,
      r.path = histKey ∧ r.objectName = histKey ∧
      r.name = "organization_history.json" := by
  obtain ⟨nm, sz, lm⟩ := o
  simp only [MinioObject.mk.injEq] at hname
  subst hname
  exact ⟨⟨(jsSplit histKey '/').getLastD histKey, histKey, histKey, sz, extOf histKey, lm⟩,
    List.mem_filterMap.mpr ⟨⟨histKey, sz, lm⟩, ho, rfl⟩, rfl, rfl, rfl⟩

/-- Witness for C9: a one-object listing holding only the history document
yields it back as an unorganized upload. -/
theorem getRecentUploads_includes_history_doc_witness :
    (⟨histKey, 5, 7⟩ : MinioObject) ∈ [(⟨histKey, 5, 7⟩ : MinioObject)] ∧
    (⟨histKey, 5, 7⟩ : MinioObject).name = histKey ∧
    ∃ r ∈ getRecentUploads [(⟨histKey, 5, 7⟩ : MinioObject)],
      r.path = histKey ∧ r.objectName = histKey ∧
      r.name = "organization_history.json" :=
  ⟨by decide, by decide,
    getRecentUploads_includes_history_doc [⟨histKey, 5, 7⟩] ⟨histKey, 5, 7⟩
      (by decide) (by decide)⟩

/-! ## Claim C2 -/

/-- C2: the claim states that `getRecentUploads` excludes every object
whose key contains the path segment `_organized/` — in particular the keys
`_organized/<folder>/<basename>` that apply writes.  The code instead
tests for the substring `/_organized/` (leading slash), which never
matches apply's root-level `_organized/...` keys, so such an object IS
returned by the lister, contradicting both the claim and the function's
own comment ("Filter out already organized files"): a code bug, evaluated
here at a key of exactly the form apply produces. -/
theorem getRecentUploads_organized_root_bug :
    newPathOf ⟨"Tax_Form_1099.pdf", "tax-documents", none⟩ =
      "_organized/tax-documents/Tax_Form_1099.pdf" ∧
    getRecentUploads [⟨"_organized/tax-documents/Tax_Form_1099.pdf", 1, 0⟩] =
      [⟨"Tax_Form_1099.pdf", "_organized/tax-documents/Tax_Form_1099.pdf",
        "_organized/tax-documents/Tax_Form_1099.pdf", 1, "pdf", 0⟩] := by
  decide

/-! ## Claim C6 -/

/-- C6 (amended): when History is empty or the history document is absent
or unreadable, `revertLastOrganization` returns the same `false` it uses
for genuine revert failures — there is no distinguished "nothing to
revert" outcome — and the API route turns that `false` into the same HTTP
500 "Error reverting organization" response. -/
theorem revert_empty_history_returns_false (env : Env) (s : Store)
    (h : parseHistory (getObject env s histKey) = some [] ∨
         parseHistory (getObject env s histKey) = none) :
    revertLastOrganization env s = (false, s) ∧
    routePutRevert (revertLastOrganization env s).1 =
      (500, "Error reverting organization") := by
  have hrev : revertLastOrganization env s = (false, s) := by
    unfold revertLastOrganization
    rcases h with h | h <;> simp [h]
  exact ⟨hrev, by rw [hrev]; rfl⟩

/-- C6 counterexample: the claim asserts a distinguished, non-error
"nothing to revert" outcome; evaluating the code, the empty-history store,
the absent-document store, and a store whose revert genuinely fails (its
batch's `newPath` no longer exists) all produce the identical `false` /
HTTP 500 outcome. -/
theorem revert_empty_history_not_distinguished :
    (revertLastOrganization Env.allOk [(histKey, Content.histDoc [])]).1 = false ∧
    (revertLastOrganization Env.allOk []).1 = false ∧
    (revertLastOrganization Env.allOk
        [(histKey, Content.histDoc [⟨[⟨"a.pdf", "_organized/f/a.pdf"⟩]⟩])]).1 = false ∧
    routePutRevert
        (revertLastOrganization Env.allOk [(histKey, Content.histDoc [])]).1 =
      routePutRevert
        (revertLastOrganization Env.allOk
          [(histKey, Content.histDoc [⟨[⟨"a.pdf", "_organized/f/a.pdf"⟩]⟩])]).1 := by
  decide

/-- Witness for C6 (amended): the empty-history store evaluates to the
`(false, unchanged)` result and the 500 response. -/
theorem revert_empty_history_returns_false_witness :
    (parseHistory (getObject Env.allOk [(histKey, Content.histDoc [])] histKey)
        = some [] ∨
     parseHistory (getObject Env.allOk [(histKey, Content.histDoc [])] histKey)
        = none) ∧
    revertLastOrganization Env.allOk [(histKey, Content.histDoc [])] =
      (false, [(histKey, Content.histDoc [])]) ∧
    routePutRevert
        (revertLastOrganization Env.allOk [(histKey, Content.histDoc [])]).1 =
      (500, "Error reverting organization") :=
  ⟨Or.inl (by decide),
    revert_empty_history_returns_false Env.allOk [(histKey, Content.histDoc [])]
      (Or.inl (by decide))⟩

/-! ## Claim C7 -/

/-- Trim leading and trailing whitespace (JS `String.prototype.trim`,
restricted to ASCII whitespace), used only to state the claimed
normalization. -/
def trimWs (l : List Char) : List Char :=
  ((l.dropWhile Char.isWhitespace).reverse.dropWhile Char.isWhitespace).reverse

/-- The normalization claim C7 asserts, built from its words: trim
leading/trailing whitespace, lowercase, collapse each whitespace run to a
single hyphen.  (For comparison against the code's `normalizeFolder`.) -/
def claimedNormalize (s : String) : String :=
  ⟨collapseWs false ((trimWs s.toList).map Char.toLower)⟩

theorem collapseWs_map_toLower (l : List Char) :
    ∀ b, (collapseWs b l).map Char.toLower = collapseWs b (l.map Char.toLower) := by
  induction l with
  | nil => intro b; rfl
  | cons c rest ih =>
    intro b
    by_cases hw : c.isWhitespace = true
    · have hw2 : (Char.toLower c).isWhitespace = true := by
        rw [isWhitespace_toLower]; exact hw
      cases b <;> simp [collapseWs, hw, hw2, ih]
    · have hw2 : ¬((Char.toLower c).isWhitespace = true) := by
        rw [isWhitespace_toLower]; exact hw
      simp [collapseWs, hw, hw2, ih]

/-- C7 (amended): the normalization applied before a classifier folder
enters a suggestion is lowercase-and-collapse-whitespace-runs-to-hyphen
with NO trimming; it agrees with the claimed trim-first normalization
exactly on strings without leading or trailing whitespace. -/
theorem normalizeFolder_eq_claimed_without_edge_ws (s : String)
    (h : trimWs s.toList = s.toList) :
    normalizeFolder s = claimedNormalize s := by
  unfold normalizeFolder claimedNormalize jsToLower replaceWsRuns
  rw [h]
  exact congrArg String.mk (collapseWs_map_toLower s.toList false)

/-- C7 counterexample: a folder value with leading whitespace.  The code's
normalization (`replace(/\s+/g,'-').toLowerCase()`, no trim) turns
`" Tax Documents"` into `"-tax-documents"` — a leading hyphen, differing
from the claimed trim-first normalization — and that hyphenated value is
exactly what enters the suggestion when the classifier answers with the
padded folder name. -/
theorem normalizeFolder_counterexample_leading_ws :
    normalizeFolder " Tax Documents" = "-tax-documents" ∧
    claimedNormalize " Tax Documents" = "tax-documents" ∧
    normalizeFolder " Tax Documents" ≠ claimedNormalize " Tax Documents" ∧
    (suggestOrganization
        [⟨"Lease_Agreement.pdf", "Lease_Agreement.pdf", "Lease_Agreement.pdf", 1, "pdf", 0⟩]
        (some [("Lease_Agreement.pdf", " Tax Documents")])).files.map
      (fun e => e.suggestedFolder) = ["-tax-documents"] := by
  decide

/-- Witness for C7 (amended): on the whitespace-free value
`"Tax  Documents"` the code's normalization and the claimed one agree. -/
theorem normalizeFolder_eq_claimed_witness :
    trimWs "Tax  Documents".toList = "Tax  Documents".toList ∧
    normalizeFolder "Tax  Documents" = claimedNormalize "Tax  Documents" :=
  ⟨by decide, normalizeFolder_eq_claimed_without_edge_ws "Tax  Documents" (by decide)⟩

/-! ## Claims C4 and C5 -/

theorem ite_ne_of (c : Prop) [Decidable c] (a b x : String)
    (ha : a ≠ x) (hb : b ≠ x) : (if c then a else b) ≠ x := by
  split
  · exact ha
  · exact hb

theorem categorizeFile_ne_empty (f : String) : categorizeFile f ≠ "" := by
  unfold categorizeFile
  repeat refine ite_ne_of _ _ _ _ (by decide) ?_
  decide

/-- C4: when the classifier gateway fails (the `catch` path),
`suggestOrganization` still returns a suggestion covering exactly the same
files as any success-path outcome, and every entry's folder is determined
solely by the fallback classifier `categorizeFile` (normalized). -/
theorem suggestOrganization_gateway_failure_fallback (files : List FileMetadata)
    (m : List (String × String)) (hne : files ≠ []) :
    (suggestOrganization files none).files =
      files.map (fun f =>
        { objectName := f.objectName
          suggestedFolder := normalizeFolder (categorizeFile f.name)
          originalFolder := originalFolderOf f.path }) ∧
    (suggestOrganization files (some m)).files.map (fun e => e.objectName) =
      (suggestOrganization files none).files.map (fun e => e.objectName) := by
  constructor
  · simp [suggestOrganization, hne]
  · simp [suggestOrganization, hne, mkEntry]

/-- The two files of the spec's fallback scenario. -/
def exampleFiles : List FileMetadata :=
  [⟨"Lease_Agreement.pdf", "Lease_Agreement.pdf", "Lease_Agreement.pdf", 1, "pdf", 0⟩,
   ⟨"Tax_Form_1099.pdf", "Tax_Form_1099.pdf", "Tax_Form_1099.pdf", 2, "pdf", 0⟩]

/-- Witness for C4, on the spec's own scenario: with the gateway down, the
two files are assigned `tenant-records` and `tax-documents` by the
fallback rules. -/
theorem suggestOrganization_gateway_failure_fallback_witness :
    exampleFiles ≠ [] ∧
    ((suggestOrganization exampleFiles none).files =
      exampleFiles.map (fun f =>
        { objectName := f.objectName
          suggestedFolder := normalizeFolder (categorizeFile f.name)
          originalFolder := originalFolderOf f.path }) ∧
     (suggestOrganization exampleFiles (some [])).files.map (fun e => e.objectName) =
      (suggestOrganization exampleFiles none).files.map (fun e => e.objectName)) ∧
    (suggestOrganization exampleFiles none).files.map (fun e => e.suggestedFolder) =
      ["tenant-records", "tax-documents"] :=
  ⟨by decide,
    suggestOrganization_gateway_failure_fallback exampleFiles [] (by decide),
    by decide⟩

/-- C5: for every non-empty input list and every classifier outcome
(success, partial answer, or failure), `suggestOrganization` returns
exactly one entry per input file, in order, and every entry's
`suggestedFolder` is a non-empty normalized slug (no uppercase, no
whitespace). -/
theorem suggestOrganization_complete_normalized (files : List FileMetadata)
    (outcome : ClassifierOutcome) (hne : files ≠ []) :
    (suggestOrganization files outcome).files.map (fun e => e.objectName) =
      files.map (fun f => f.objectName) ∧
    ∀ e ∈ (suggestOrganization files outcome).files,
      IsNormalizedSlug e.suggestedFolder := by
  cases outcome with
  | none =>
    constructor
    · simp [suggestOrganization, hne]
    · intro e he
      simp only [suggestOrganization, if_neg hne] at he
      rcases List.mem_map.mp he with ⟨f, hf, rfl⟩
      exact normalizeFolder_slug _ (categorizeFile_ne_empty f.name)
  | some m =>
    constructor
    · simp [suggestOrganization, hne, mkEntry]
    · intro e he
      simp only [suggestOrganization, if_neg hne] at he
      rcases List.mem_map.mp he with ⟨f, hf, rfl⟩
      simp only [mkEntry]
      apply normalizeFolder_slug
      split
      · decide
      next hraw => exact hraw

/-- Witness for C5: one entry per file with normalized folders, on the
example files with a partial classifier answer (one file answered with the
empty string, exercising the `|| 'Uncategorized'` default). -/
theorem suggestOrganization_complete_normalized_witness :
    exampleFiles ≠ [] ∧
    ((suggestOrganization exampleFiles
        (some [("Lease_Agreement.pdf", "")])).files.map (fun e => e.objectName) =
      exampleFiles.map (fun f => f.objectName) ∧
     ∀ e ∈ (suggestOrganization exampleFiles
        (some [("Lease_Agreement.pdf", "")])).files,
       IsNormalizedSlug e.suggestedFolder) :=
  ⟨by decide,
    suggestOrganization_complete_normalized exampleFiles
      (some [("Lease_Agreement.pdf", "")]) (by decide)⟩

/-! ## Claim C1 -/

/-- A two-file store in the `docs/` folder. -/
def sampleStore : Store :=
  [("docs/Lease_Agreement.pdf", Content.blob "lease"),
   ("docs/Tax_Form_1099.pdf", Content.blob "tax")]

/-- The suggestion that moves the two sample files. -/
def sampleOrg : OrganizationSuggestion :=
  { files :=
      [⟨"docs/Lease_Agreement.pdf", "tenant-records", some "docs"⟩,
       ⟨"docs/Tax_Form_1099.pdf", "tax-documents", some "docs"⟩]
    uniqueFolders := ["tenant-records", "tax-documents"] }

/-- An environment in which deleting the second sample file throws. -/
def envRemoveFail : Env :=
  { Env.allOk with removeOk := fun k => !(k == "docs/Tax_Form_1099.pdf") }

/-- C1 counterexample: the delete of the second entry throws after the
first entry was fully moved.  The claim says one HistoryBatch with the
successful pair is still appended; evaluating the code, apply reports
failure but the history document was never written (`none` at the history
key) although the first file sits moved at its new path. -/
theorem apply_partial_failure_counterexample :
    (applyOrganization envRemoveFail sampleStore sampleOrg).1 = false ∧
    Store.get (applyOrganization envRemoveFail sampleStore sampleOrg).2
      "_organized/tenant-records/Lease_Agreement.pdf" = some (Content.blob "lease") ∧
    Store.get (applyOrganization envRemoveFail sampleStore sampleOrg).2
      "docs/Lease_Agreement.pdf" = none ∧
    Store.get (applyOrganization envRemoveFail sampleStore sampleOrg).2 histKey = none := by
  decide

/-- C1 (amended): when a copy or delete throws partway through
`applyOrganization`, the `catch` reports failure and no HistoryBatch is
appended at all — the history document is left exactly as it was (the
moves already performed remain on the store but go unrecorded). -/
theorem apply_partial_failure_no_history (env : Env) (s : Store)
    (org : OrganizationSuggestion) (s' : Store)
    (hfail : applyEntries env s org.files [] = (s', none))
    (hkeys : ∀ e ∈ org.files, e.objectName ≠ histKey ∧ newPathOf e ≠ histKey) :
    applyOrganization env s org = (false, s') ∧
    Store.get s' histKey = Store.get s histKey := by
  constructor
  · unfold applyOrganization
    rw [hfail]
  · have hb := applyEntries_eq_moveLoop env org.files s []
    rw [hfail] at hb
    have hs' : s' = (moveLoop env s (applyPairs org.files)).1 :=
      congrArg Prod.fst hb
    rw [hs']
    refine moveLoop_untouched env (applyPairs org.files) s histKey ?_
    intro p hp
    rcases List.mem_map.mp (by simpa [applyPairs] using hp) with ⟨e, he, rfl⟩
    exact ⟨Ne.symm (hkeys e he).1, Ne.symm (hkeys e he).2⟩

/-- Witness for C1 (amended): instantiated on the failing sample run. -/
theorem apply_partial_failure_no_history_witness :
    applyEntries envRemoveFail sampleStore sampleOrg.files [] =
      ((applyEntries envRemoveFail sampleStore sampleOrg.files []).1, none) ∧
    (applyOrganization envRemoveFail sampleStore sampleOrg =
      (false, (applyEntries envRemoveFail sampleStore sampleOrg.files []).1) ∧
     Store.get (applyEntries envRemoveFail sampleStore sampleOrg.files []).1 histKey =
      Store.get sampleStore histKey) :=
  ⟨by decide,
    apply_partial_failure_no_history envRemoveFail sampleStore sampleOrg _
      (by decide) (by decide)⟩

/-! ## Claim C8 -/

/-- An environment in which writing the history document throws. -/
def envHistPutFail : Env :=
  { Env.allOk with putOk := fun k => !(k == histKey) }

/-- C8: `storeOrganizationHistory` swallows every error internally, so
when persisting the HistoryBatch fails after all moves succeeded,
`applyOrganization` still returns success with the store exactly as the
moves left it (no history document), `moveFile` likewise still returns
success, and — if no history document existed before — the
reported-successful apply is unrevertible (`revertLastOrganization`
returns the failure result). -/
theorem apply_success_despite_history_put_failure (env : Env) (s : Store)
    (org : OrganizationSuggestion) (s' : Store) (acts : List MoveAction)
    (happly : applyEntries env s org.files [] = (s', some acts))
    (hput : env.putOk histKey = false)
    (t : Store) (objName tF : String) (v : Content)
    (hsrc : Store.get t objName = some v)
    (hcopy : env.copyOk ("_organized/" ++ tF ++ "/" ++ basename objName) objName = true)
    (hrem : env.removeOk objName = true) :
    applyOrganization env s org = (true, s') ∧
    (moveFile env t objName tF).1 = true ∧
    (Store.get s' histKey = none →
      revertLastOrganization env s' = (false, s')) := by
  have hstore : ∀ (u : Store) (w : List MoveAction),
      storeOrganizationHistory env u w = u := by
    intro u w
    unfold storeOrganizationHistory
    simp [putObject, hput]
  refine ⟨?_, ?_, ?_⟩
  · unfold applyOrganization
    rw [happly]
    show (true, storeOrganizationHistory env s' acts) = (true, s')
    rw [hstore]
  · have hc : copyObject env t ("_organized/" ++ tF ++ "/" ++ basename objName) objName =
        some (Store.put t ("_organized/" ++ tF ++ "/" ++ basename objName) v) := by
      simp [copyObject, hcopy, hsrc]
    have hr : removeObject env
        (Store.put t ("_organized/" ++ tF ++ "/" ++ basename objName) v) objName =
        some (Store.remove
          (Store.put t ("_organized/" ++ tF ++ "/" ++ basename objName) v) objName) := by
      simp [removeObject, hrem]
    simp [moveFile, hc, hr]
  · intro hnone
    unfold revertLastOrganization
    have hget : getObject env s' histKey = none := by
      unfold getObject
      split
      · exact hnone
      · rfl
    rw [hget]
    rfl

/-- Witness for C8: with the history write failing, the two-file apply
still reports success, a manual move still reports success, and the
immediately following revert fails because no history was recorded. -/
theorem apply_success_despite_history_put_failure_witness :
    applyEntries envHistPutFail sampleStore sampleOrg.files [] =
      ((applyEntries envHistPutFail sampleStore sampleOrg.files []).1,
       some (((applyEntries envHistPutFail sampleStore sampleOrg.files []).2).getD [])) ∧
    envHistPutFail.putOk histKey = false ∧
    Store.get [("u/x.pdf", Content.blob "x")] "u/x.pdf" = some (Content.blob "x") ∧
    (applyOrganization envHistPutFail sampleStore sampleOrg =
      (true, (applyEntries envHistPutFail sampleStore sampleOrg.files []).1) ∧
     (moveFile envHistPutFail [("u/x.pdf", Content.blob "x")] "u/x.pdf" "Weird FOLDER").1
        = true ∧
     (Store.get (applyEntries envHistPutFail sampleStore sampleOrg.files []).1 histKey
        = none →
      revertLastOrganization envHistPutFail
          (applyEntries envHistPutFail sampleStore sampleOrg.files []).1 =
        (false, (applyEntries envHistPutFail sampleStore sampleOrg.files []).1))) :=
  ⟨by decide, by decide, by decide,
    apply_success_despite_history_put_failure envHistPutFail sampleStore sampleOrg
      (applyEntries envHistPutFail sampleStore sampleOrg.files []).1
      (((applyEntries envHistPutFail sampleStore sampleOrg.files []).2).getD [])
      (by decide) (by decide)
      [("u/x.pdf", Content.blob "x")] "u/x.pdf" "Weird FOLDER" (Content.blob "x")
      (by decide) (by decide) (by decide)⟩

/-! ## Claim C3 -/

/-- Two objects in different folders sharing a basename. -/
def collideStore : Store :=
  [("a/x.pdf", Content.blob "A"), ("b/x.pdf", Content.blob "B")]

/-- A suggestion sending both colliding files to the same folder, so both
get the destination key `_organized/f/x.pdf`. -/
def collideOrg : OrganizationSuggestion :=
  { files := [⟨"a/x.pdf", "f", some "a"⟩, ⟨"b/x.pdf", "f", some "b"⟩]
    uniqueFolders := ["f"] }

/-- C3 counterexample: both entries share the destination key, so the
second copy overwrites the first; every copy and delete still succeeds, so
apply "succeeds fully" (`true`).  The single revert then fails partway
(`false`): `b/x.pdf` is never restored, `a/x.pdf` comes back with the
wrong content (`B`, not its original `A`), and the batch is still in
History — the claimed round trip does not hold for every fully-successful
apply. -/
theorem apply_then_revert_counterexample :
    (applyOrganization Env.allOk collideStore collideOrg).1 = true ∧
    (revertLastOrganization Env.allOk
      (applyOrganization Env.allOk collideStore collideOrg).2).1 = false ∧
    Store.get (revertLastOrganization Env.allOk
      (applyOrganization Env.allOk collideStore collideOrg).2).2 "b/x.pdf" = none ∧
    Store.get (revertLastOrganization Env.allOk
      (applyOrganization Env.allOk collideStore collideOrg).2).2 "a/x.pdf" =
      some (Content.blob "B") ∧
    parseHistory (getObject Env.allOk (revertLastOrganization Env.allOk
        (applyOrganization Env.allOk collideStore collideOrg).2).2 histKey) =
      some [⟨[⟨"a/x.pdf", "_organized/f/x.pdf"⟩, ⟨"b/x.pdf", "_organized/f/x.pdf"⟩]⟩] := by
  decide

/-- C3 (amended): for every suggestion whose entries have pairwise
distinct source keys and pairwise distinct, fresh destination keys, with
destinations disjoint from sources and no key equal to the history key,
a fully successful apply followed by one revert restores every moved
object to its `originalPath`, removes it from `newPath`, leaves every
non-history key exactly as before the apply, and History again equals its
pre-apply contents (the appended batch is removed). -/
theorem apply_then_revert_roundtrip (s : Store) (org : OrganizationSuggestion)
    (hex : ∀ e ∈ org.files, (Store.get s e.objectName).isSome = true)
    (hfresh : ∀ e ∈ org.files, Store.get s (newPathOf e) = none)
    (hfst : org.files.Pairwise fun e e' => e.objectName ≠ e'.objectName)
    (hsnd : org.files.Pairwise fun e e' => newPathOf e ≠ newPathOf e')
    (hdisj : ∀ e ∈ org.files, ∀ e' ∈ org.files, newPathOf e ≠ e'.objectName)
    (hmeta : ∀ e ∈ org.files, e.objectName ≠ histKey ∧ newPathOf e ≠ histKey) :
    (applyOrganization Env.allOk s org).1 = true ∧
    (revertLastOrganization Env.allOk (applyOrganization Env.allOk s org).2).1 = true ∧
    (∀ k, k ≠ histKey →
      Store.get (revertLastOrganization Env.allOk
        (applyOrganization Env.allOk s org).2).2 k = Store.get s k) ∧
    parseHistory (getObject Env.allOk (revertLastOrganization Env.allOk
        (applyOrganization Env.allOk s org).2).2 histKey) =
      some ((parseHistory (getObject Env.allOk s histKey)).getD []) := by
  classical
  have hpex : ∀ p ∈ applyPairs org.files, (Store.get s p.1).isSome = true := by
    intro p hp
    rcases List.mem_map.mp (by simpa [applyPairs] using hp) with ⟨e, he, rfl⟩
    exact hex e he
  have hpfst : (applyPairs org.files).Pairwise fun p q => p.1 ≠ q.1 := by
    rw [applyPairs, List.pairwise_map]
    exact hfst
  have hpsnd : (applyPairs org.files).Pairwise fun p q => p.2 ≠ q.2 := by
    rw [applyPairs, List.pairwise_map]
    exact hsnd
  have hpdisj : ∀ p ∈ applyPairs org.files, ∀ q ∈ applyPairs org.files, p.2 ≠ q.1 := by
    intro p hp q hq
    rcases List.mem_map.mp (by simpa [applyPairs] using hp) with ⟨e, he, rfl⟩
    rcases List.mem_map.mp (by simpa [applyPairs] using hq) with ⟨e', he', rfl⟩
    exact hdisj e he e' he'
  obtain ⟨hA, hA1, hA2⟩ := moveLoop_ok (applyPairs org.files) s hpex hpfst hpsnd hpdisj
  set S1 := (moveLoop Env.allOk s (applyPairs org.files)).1 with hS1
  have hkeysA : ∀ p ∈ applyPairs org.files, histKey ≠ p.1 ∧ histKey ≠ p.2 := by
    intro p hp
    rcases List.mem_map.mp (by simpa [applyPairs] using hp) with ⟨e, he, rfl⟩
    exact ⟨Ne.symm (hmeta e he).1, Ne.symm (hmeta e he).2⟩
  have hS1hist : Store.get S1 histKey = Store.get s histKey :=
    moveLoop_untouched Env.allOk (applyPairs org.files) s histKey hkeysA
  set acts := org.files.map
    (fun e => (⟨e.objectName, newPathOf e⟩ : MoveAction)) with hacts
  have happ : applyEntries Env.allOk s org.files [] = (S1, some acts) := by
    rw [applyEntries_eq_moveLoop, hA]
    simp [hacts]
  set h0 := (parseHistory (Store.get s histKey)).getD [] with hh0
  have happOrg : applyOrganization Env.allOk s org =
      (true, Store.put S1 histKey (Content.histDoc (h0 ++ [⟨acts⟩]))) := by
    unfold applyOrganization
    rw [happ]
    show (true, storeOrganizationHistory Env.allOk S1 acts) = _
    unfold storeOrganizationHistory
    simp [putObject, getObject, Env.allOk, hS1hist, hh0]
  set S2 := Store.put S1 histKey (Content.histDoc (h0 ++ [⟨acts⟩])) with hS2
  have hgetS2 : Store.get S2 histKey = some (Content.histDoc (h0 ++ [⟨acts⟩])) := by
    rw [hS2, get_put, if_pos rfl]
  have hqs : revertPairs acts = org.files.map
      (fun e => (newPathOf e, e.objectName)) := by
    rw [hacts, revertPairs, List.map_map]
    rfl
  have hS2new : ∀ e ∈ org.files,
      Store.get S2 (newPathOf e) = Store.get s e.objectName := by
    intro e he
    have h2 : Store.get S2 (newPathOf e) = Store.get S1 (newPathOf e) := by
      rw [hS2, get_put, if_neg (Ne.symm (hmeta e he).2)]
    have hmA : ((e.objectName, newPathOf e) : String × String) ∈ applyPairs org.files :=
      List.mem_map_of_mem _ he
    rw [h2]
    exact hA1 _ hmA
  have hqex : ∀ p ∈ revertPairs acts, (Store.get S2 p.1).isSome = true := by
    intro p hp
    rw [hqs] at hp
    rcases List.mem_map.mp hp with ⟨e, he, rfl⟩
    rw [hS2new e he]
    exact hex e he
  have hqfst : (revertPairs acts).Pairwise fun p q => p.1 ≠ q.1 := by
    rw [hqs, List.pairwise_map]
    exact hsnd
  have hqsnd : (revertPairs acts).Pairwise fun p q => p.2 ≠ q.2 := by
    rw [hqs, List.pairwise_map]
    exact hfst
  have hqdisj : ∀ p ∈ revertPairs acts, ∀ q ∈ revertPairs acts, p.2 ≠ q.1 := by
    intro p hp q hq
    rw [hqs] at hp hq
    rcases List.mem_map.mp hp with ⟨e, he, rfl⟩
    rcases List.mem_map.mp hq with ⟨e', he', rfl⟩
    exact Ne.symm (hdisj e' he' e he)
  obtain ⟨hB, hB1, hB2⟩ := moveLoop_ok (revertPairs acts) S2 hqex hqfst hqsnd hqdisj
  set S3 := (moveLoop Env.allOk S2 (revertPairs acts)).1 with hS3
  have hrevActs : revertActions Env.allOk S2 acts = (S3, true) := by
    rw [revertActions_eq_moveLoop]
    exact Prod.ext_iff.mpr ⟨hS3.symm ▸ rfl, hB⟩
  set S4 := Store.put S3 histKey (Content.histDoc h0) with hS4
  have hrev : revertLastOrganization Env.allOk S2 = (true, S4) := by
    unfold revertLastOrganization
    have hpar : parseHistory (getObject Env.allOk S2 histKey) =
        some (h0 ++ [⟨acts⟩]) := by
      simp [getObject, Env.allOk, hgetS2, parseHistory]
    rw [hpar]
    have hne2 : ¬(h0 ++ [(⟨acts⟩ : HistoryBatch)] = []) := by simp
    simp only [hne2, ite_false, if_false, List.getLastD_concat,
      List.dropLast_concat]
    rw [hrevActs]
    simp [putObject, Env.allOk, hS4]
  refine ⟨by rw [happOrg], ?_, ?_, ?_⟩
  · rw [happOrg]
    show (revertLastOrganization Env.allOk S2).1 = true
    rw [hrev]
  · intro k hk
    rw [happOrg]
    show Store.get (revertLastOrganization Env.allOk S2).2 k = Store.get s k
    rw [hrev]
    show Store.get S4 k = Store.get s k
    rw [hS4, get_put, if_neg (Ne.symm hk)]
    by_cases hknew : ∃ e ∈ org.files, k = newPathOf e
    · obtain ⟨e, he, rfl⟩ := hknew
      have hm : ((newPathOf e, e.objectName) : String × String) ∈ revertPairs acts := by
        rw [hqs]
        exact List.mem_map_of_mem _ he
      rw [hB2 _ hm]
      exact (hfresh e he).symm
    · by_cases hkorig : ∃ e ∈ org.files, k = e.objectName
      · obtain ⟨e, he, rfl⟩ := hkorig
        have hm : ((newPathOf e, e.objectName) : String × String) ∈ revertPairs acts := by
          rw [hqs]
          exact List.mem_map_of_mem _ he
        rw [hB1 _ hm]
        exact hS2new e he
      · have hq : ∀ p ∈ revertPairs acts, k ≠ p.1 ∧ k ≠ p.2 := by
          intro p hp
          rw [hqs] at hp
          rcases List.mem_map.mp hp with ⟨e, he, rfl⟩
          exact ⟨fun h => hknew ⟨e, he, h⟩, fun h => hkorig ⟨e, he, h⟩⟩
        have hp2 : ∀ p ∈ applyPairs org.files, k ≠ p.1 ∧ k ≠ p.2 := by
          intro p hp
          rcases List.mem_map.mp (by simpa [applyPairs] using hp) with ⟨e, he, rfl⟩
          exact ⟨fun h => hkorig ⟨e, he, h⟩, fun h => hknew ⟨e, he, h⟩⟩
        rw [moveLoop_untouched Env.allOk (revertPairs acts) S2 k hq]
        rw [hS2, get_put, if_neg (Ne.symm hk)]
        exact moveLoop_untouched Env.allOk (applyPairs org.files) s k hp2
  · rw [happOrg]
    show parseHistory (getObject Env.allOk
      (revertLastOrganization Env.allOk S2).2 histKey) = _
    rw [hrev]
    show parseHistory (getObject Env.allOk S4 histKey) = _
    have h4 : getObject Env.allOk S4 histKey = some (Content.histDoc h0) := by
      simp [getObject, Env.allOk, hS4, get_put]
    rw [h4]
    simp [parseHistory, getObject, Env.allOk, hh0]

/-- Witness for C3 (amended): the two-file sample suggestion satisfies the
distinctness hypotheses, and applying then reverting it round-trips. -/
theorem apply_then_revert_roundtrip_witness :
    (∀ e ∈ sampleOrg.files, (Store.get sampleStore e.objectName).isSome = true) ∧
    (∀ e ∈ sampleOrg.files, Store.get sampleStore (newPathOf e) = none) ∧
    ((applyOrganization Env.allOk sampleStore sampleOrg).1 = true ∧
     (revertLastOrganization Env.allOk
        (applyOrganization Env.allOk sampleStore sampleOrg).2).1 = true ∧
     (∀ k, k ≠ histKey →
        Store.get (revertLastOrganization Env.allOk
          (applyOrganization Env.allOk sampleStore sampleOrg).2).2 k =
          Store.get sampleStore k) ∧
     parseHistory (getObject Env.allOk (revertLastOrganization Env.allOk
          (applyOrganization Env.allOk sampleStore sampleOrg).2).2 histKey) =
        some ((parseHistory (getObject Env.allOk sampleStore histKey)).getD [])) :=
  ⟨by decide, by decide,
    apply_then_revert_roundtrip sampleStore sampleOrg (by decide) (by decide)
      (by decide) (by decide) (by decide) (by decide)⟩

end OpenVDR
